import Mathlib

/-!
A shallow embedding of the image-tagging catalog core of jmoore34/image-api.

The persisted relations (Image, Tag, ImageTag from the migration) are modelled
as lists of rows inside a Db value; auto-increment identifier allocation is
modelled with explicit nextImageId / nextTagId counters.  The read side
(query_images.rs) is modelled as pure functions over Db; the write side
(create_image.rs) threads a transaction state explicitly, with store faults
injected by an explicit list of failing operation indices, and the enclosing
transaction rolling back (returning the original Db) on any error, which is
the behaviour of the transaction wrapper in the source.

SQL conventions modelled here:
- a WHERE name IN (list) clause is membership of the name in the list; for an
  empty list the condition is false (it can match nothing);
- the composite primary key on ImageTag rejects a batch insert that contains
  a duplicate (image_id, tag_id) pair or a pair already present; a batch of
  zero rows is modelled as a no-op success;
- GROUP BY image.id with HAVING COUNT enumerates, per image row, the joined
  junction rows that survive the WHERE clause, and keeps the image only when
  at least one row survives and the count matches.
-/

namespace ImageApi

/-- A row of the Image table: id (auto-increment primary key), label, url. -/
structure ImageRow where
  id : Int
  label : String
  url : String
deriving Repr, DecidableEq

/-- A row of the Tag table: id (auto-increment primary key), name. -/
structure TagRow where
  id : Int
  name : String
deriving Repr, DecidableEq

/-- A row of the ImageTag junction table; the pair is the composite primary key. -/
structure ImageTagRow where
  image_id : Int
  tag_id : Int
deriving Repr, DecidableEq

/-- The database state: the three relations plus the auto-increment counters. -/
structure Db where
  images : List ImageRow
  tags : List TagRow
  image_tags : List ImageTagRow
  nextImageId : Int
  nextTagId : Int
deriving Repr, DecidableEq

/-- Well-formedness of a database state: identifiers below the counters,
primary keys unique, and the tag-name invariant maintained by the resolver. -/
def Db.WF (db : Db) : Prop :=
  (∀ img ∈ db.images, img.id < db.nextImageId) ∧
  (∀ tg ∈ db.tags, tg.id < db.nextTagId) ∧
  (db.images.map (fun i => i.id)).Nodup ∧
  (db.tags.map (fun t => t.id)).Nodup ∧
  (db.tags.map (fun t => t.name)).Nodup ∧
  db.image_tags.Nodup

instance (db : Db) : Decidable db.WF := by
  unfold Db.WF; infer_instance

/-- The ServerError type of error.rs: an HTTP status code plus a message. -/
structure ServerError where
  code : Nat
  msg : String
deriving Repr, DecidableEq

/-- The read-side projection returned by the query engine (struct ImageResult). -/
structure ImageResult where
  url : String
  tags : List String
  label : String
  id : Int
deriving Repr, DecidableEq

/-- Look up the name of the tag row with the given id (the Tag side of the join). -/
def tagNameOf (db : Db) (tagId : Int) : Option String :=
  (db.tags.find? (fun t => decide (t.id = tagId))).map (fun t => t.name)

/-- The names of the tags associated with an image through the junction table,
in junction-row order: the find_related join of the source. -/
def imageTagNames (db : Db) (imgId : Int) : List String :=
  (db.image_tags.filter (fun it => decide (it.image_id = imgId))).filterMap
    (fun it => tagNameOf db it.tag_id)

/-- Build one ImageResult from an image row joined with all of its tags. -/
def imageResultOf (db : Db) (img : ImageRow) : ImageResult :=
  ImageResult.mk img.url (imageTagNames db img.id) img.label img.id

/-- query_image_by_id from query_images.rs: find the image by id; a missing
image is a 404 not-found, a found image is joined with its tag names. -/
def query_image_by_id (id : Int) (db : Db) : Except ServerError ImageResult :=
  match db.images.find? (fun img => decide (img.id = id)) with
  | none => Except.error (ServerError.mk 404 ("No image found with id " ++ toString id))
  | some image =>
      Except.ok (ImageResult.mk image.url (imageTagNames db image.id) image.label image.id)

/-- The TagFilter enum of query_images.rs. -/
inductive TagFilter where
  | none
  | containsSomeTags (tags : List String)
  | containsAllTags (tags : List String)

/-- Rows of the aggregation subquery that survive the WHERE clause for one
image: junction rows of that image whose joined tag name is in the requested
list.  HAVING COUNT compares the length of this list. -/
def matchingRows (db : Db) (imgId : Int) (qtags : List String) : List ImageTagRow :=
  (db.image_tags.filter (fun it => decide (it.image_id = imgId))).filter
    (fun it =>
      match tagNameOf db it.tag_id with
      | some nm => decide (nm ∈ qtags)
      | none => false)

/-- get_image_ids_that_have_all_tags from query_images.rs: the
join-filter-group-having aggregation.  The count kept by HAVING is the total
length of the requested list (the num_tags value of the source), and the
usize-to-i32 conversion of that length fails with a 400 error when the list
is too long. -/
def get_image_ids_that_have_all_tags (qtags : List String) (db : Db) :
    Except ServerError (List Int) :=
  if qtags.length < 2 ^ 31 then
    Except.ok
      ((db.images.filter (fun img =>
        decide (0 < (matchingRows db img.id qtags).length) &&
        decide ((matchingRows db img.id qtags).length = qtags.length))).map
        (fun img => img.id))
  else Except.error (ServerError.mk 400 "Too many tags provided")

/-- query_images from query_images.rs.  The None arm joins every image with
all of its tags.  The ContainsSomeTags arm filters the joined rows by tag
name, so an image appears only if it has a matching tag and carries only its
matching tag names.  The ContainsAllTags arm first computes the image ids by
aggregation, then joins exactly those images with all of their tags. -/
def query_images (tag_filter : TagFilter) (db : Db) :
    Except ServerError (List ImageResult) :=
  match tag_filter with
  | TagFilter.none => Except.ok (db.images.map (imageResultOf db))
  | TagFilter.containsSomeTags qtags =>
      Except.ok (db.images.filterMap (fun img =>
        let matched := (imageTagNames db img.id).filter (fun nm => decide (nm ∈ qtags))
        if matched.isEmpty then none
        else some (ImageResult.mk img.url matched img.label img.id)))
  | TagFilter.containsAllTags qtags =>
      match get_image_ids_that_have_all_tags qtags db with
      | Except.error e => Except.error e
      | Except.ok image_ids =>
          Except.ok ((db.images.filter (fun img => decide (img.id ∈ image_ids))).map
            (imageResultOf db))

/-- The ImageInput enum of imagga_client.rs: an image is given either by a
ready URL or by base64-encoded raw data. -/
inductive ImageInput where
  | imageUrl (url : String)
  | imageBase64 (data : String)

/-- The route under which uploaded files are served (upload_image.rs). -/
def FILES_ROUTE : String := "/files"

/-- upload from upload_image.rs: saving the decoded image is a side effect on
the filesystem; the returned URL embeds the assigned image id. -/
def upload (base64str : String) (id : Int) : String :=
  "http://localhost:3000" ++ FILES_ROUTE ++ "/" ++ toString id ++ ".png"

/-- generate_label from create_image.rs: a fixed label for an empty tag list,
otherwise the tags joined with commas inside a fixed sentence template. -/
def generate_label (tags : List String) : String :=
  if tags.isEmpty then "An untagged image"
  else "An image containing " ++ String.intercalate ", " tags ++ "."

/-- The fields of the image ActiveModel built before insertion (the id is
not yet set: the store assigns it). -/
structure ImageActiveModel where
  label : String
  url : String
deriving Repr, DecidableEq

/-- create_image_model from create_image.rs: use the caller-supplied label
when present, otherwise synthesize one from the tag names. -/
def create_image_model (url : String) (tags : List String) (label : Option String) :
    ImageActiveModel :=
  match label with
  | some label => ImageActiveModel.mk label url
  | none => ImageActiveModel.mk (generate_label tags) url

/-- Store-layer errors (the DbErr values observable on the write path):
either an injected store failure or a uniqueness-constraint violation. -/
inductive DbError where
  | storeFailure
  | uniqueViolation
deriving Repr, DecidableEq

/-- The From conversion of error.rs: every database error becomes an HTTP
500 internal server error. -/
def serverErrorOfDbErr (e : DbError) : ServerError :=
  match e with
  | DbError.storeFailure => ServerError.mk 500 "Database error: store failure"
  | DbError.uniqueViolation => ServerError.mk 500 "Database error: unique constraint violation"

/-- A transaction in progress: the pending database state plus a counter of
store operations issued so far, used for fault injection. -/
structure Txn where
  db : Db
  ops : Nat
deriving Repr, DecidableEq

/-- Faults are the indices of store operations that fail with a store error. -/
abbrev Faults := List Nat

/-- db.begin: opening the transaction is itself a store operation. -/
def beginTxn (faults : Faults) (db : Db) : Except DbError Txn :=
  if 0 ∈ faults then Except.error DbError.storeFailure
  else Except.ok (Txn.mk db 1)

/-- Tag::find().filter(name).one: the first tag row with the given name. -/
def findTagByName (faults : Faults) (name : String) (t : Txn) :
    Except DbError (Option TagRow × Txn) :=
  if t.ops ∈ faults then Except.error DbError.storeFailure
  else Except.ok (t.db.tags.find? (fun tg => decide (tg.name = name)), Txn.mk t.db (t.ops + 1))

/-- Inserting one tag row: the store assigns the next tag id.  The schema has
no uniqueness constraint on the name column, so no name check happens here. -/
def insertTag (faults : Faults) (name : String) (t : Txn) :
    Except DbError (TagRow × Txn) :=
  if t.ops ∈ faults then Except.error DbError.storeFailure
  else
    let tg := TagRow.mk t.db.nextTagId name
    Except.ok (tg,
      Txn.mk
        (Db.mk t.db.images (t.db.tags ++ [tg]) t.db.image_tags t.db.nextImageId
          (t.db.nextTagId + 1))
        (t.ops + 1))

/-- get_tag_id from create_image.rs: return the id of an existing tag with
this exact name, otherwise insert a new tag and return its id. -/
def get_tag_id (faults : Faults) (name : String) (t : Txn) :
    Except DbError (Int × Txn) :=
  match findTagByName faults name t with
  | Except.error e => Except.error e
  | Except.ok (some tg, t1) => Except.ok (tg.id, t1)
  | Except.ok (none, t1) =>
      match insertTag faults name t1 with
      | Except.error e => Except.error e
      | Except.ok (tg, t2) => Except.ok (tg.id, t2)

/-- The tag-id resolution loop of execute_insert_image.  The source issues
the resolutions through join_all on a single transaction connection; they are
modelled in input order, and the collect step surfaces the first error. -/
def resolve_tags (faults : Faults) (names : List String) (t : Txn) :
    Except DbError (List Int × Txn) :=
  match names with
  | [] => Except.ok ([], t)
  | n :: ns =>
      match get_tag_id faults n t with
      | Except.error e => Except.error e
      | Except.ok (i, t1) =>
          match resolve_tags faults ns t1 with
          | Except.error e => Except.error e
          | Except.ok (ids, t2) => Except.ok (i :: ids, t2)

/-- Inserting the image row: the store assigns the next image id. -/
def insertImage (faults : Faults) (m : ImageActiveModel) (t : Txn) :
    Except DbError (ImageRow × Txn) :=
  if t.ops ∈ faults then Except.error DbError.storeFailure
  else
    let row := ImageRow.mk t.db.nextImageId m.label m.url
    Except.ok (row,
      Txn.mk
        (Db.mk (t.db.images ++ [row]) t.db.tags t.db.image_tags (t.db.nextImageId + 1)
          t.db.nextTagId)
        (t.ops + 1))

/-- ImageTag::insert_many: the bulk junction insert.  The composite primary
key rejects the batch when it contains a duplicate pair or a pair already
present in the table. -/
def insertManyImageTags (faults : Faults) (rows : List ImageTagRow) (t : Txn) :
    Except DbError Txn :=
  if t.ops ∈ faults then Except.error DbError.storeFailure
  else if rows.Nodup ∧ ∀ r ∈ rows, r ∉ t.db.image_tags then
    Except.ok (Txn.mk
      (Db.mk t.db.images t.db.tags (t.db.image_tags ++ rows) t.db.nextImageId t.db.nextTagId)
      (t.ops + 1))
  else Except.error DbError.uniqueViolation

/-- ActiveModel update of the image row: patch the url of the row with the
given primary key. -/
def updateImageUrl (faults : Faults) (id : Int) (url : String) (t : Txn) :
    Except DbError Txn :=
  if t.ops ∈ faults then Except.error DbError.storeFailure
  else
    Except.ok (Txn.mk
      (Db.mk
        (t.db.images.map (fun img => if decide (img.id = id) then ImageRow.mk img.id img.label url else img))
        t.db.tags t.db.image_tags t.db.nextImageId t.db.nextTagId)
      (t.ops + 1))

/-- txn.commit: also a store operation; on success the pending state becomes
the database state, on failure nothing is persisted. -/
def commitTxn (faults : Faults) (imageId : Int) (t : Txn) (orig : Db) :
    Except ServerError Int × Db :=
  if t.ops ∈ faults then (Except.error (serverErrorOfDbErr DbError.storeFailure), orig)
  else (Except.ok imageId, t.db)

/-- execute_insert_image from create_image.rs: resolve the tags, insert the
image row (with a temporary url on the base64 path), bulk-insert the junction
rows, on the base64 path upload and patch the url, then commit.  Any error
drops the transaction, so the returned database state is the original one. -/
def execute_insert_image (faults : Faults) (image_input : ImageInput)
    (tags : List String) (label : Option String) (db : Db) :
    Except ServerError Int × Db :=
  match beginTxn faults db with
  | Except.error e => (Except.error (serverErrorOfDbErr e), db)
  | Except.ok t0 =>
    match resolve_tags faults tags t0 with
    | Except.error e => (Except.error (serverErrorOfDbErr e), db)
    | Except.ok (tag_ids, t1) =>
      let url := match image_input with
        | ImageInput.imageUrl u => u
        | ImageInput.imageBase64 _ => "temporary"
      match insertImage faults (create_image_model url tags label) t1 with
      | Except.error e => (Except.error (serverErrorOfDbErr e), db)
      | Except.ok (new_image, t2) =>
        let image_tags := tag_ids.map (fun tag_id => ImageTagRow.mk new_image.id tag_id)
        match insertManyImageTags faults image_tags t2 with
        | Except.error e => (Except.error (serverErrorOfDbErr e), db)
        | Except.ok t3 =>
          match image_input with
          | ImageInput.imageBase64 image_base64 =>
              let new_image_url := upload image_base64 new_image.id
              match updateImageUrl faults new_image.id new_image_url t3 with
              | Except.error e => (Except.error (serverErrorOfDbErr e), db)
              | Except.ok t4 => commitTxn faults new_image.id t4 db
          | ImageInput.imageUrl _ => commitTxn faults new_image.id t3 db

/-! Concrete database states used to instantiate the theorems below. -/

/-- The empty store, counters at their initial value. -/
def exDbEmpty : Db := Db.mk [] [] [] 1 1

/-- One image associated with the single tag cat. -/
def exDbCatOnly : Db :=
  Db.mk [ImageRow.mk 1 "lbl" "u"] [TagRow.mk 1 "cat"] [ImageTagRow.mk 1 1] 2 2

/-- One image associated with the tags cat and dog. -/
def exDbCatDog : Db :=
  Db.mk [ImageRow.mk 1 "lbl" "u"] [TagRow.mk 1 "cat", TagRow.mk 2 "dog"]
    [ImageTagRow.mk 1 1, ImageTagRow.mk 1 2] 3 3

/-- Two images: image 1 tagged cat, image 2 untagged. -/
def exDbTwoImages : Db :=
  Db.mk [ImageRow.mk 1 "a" "u1", ImageRow.mk 2 "b" "u2"] [TagRow.mk 1 "cat"]
    [ImageTagRow.mk 1 1] 3 2

/-- The store after inserting one base64 image tagged cat into the empty store. -/
def exDbAfterInsert : Db :=
  Db.mk [ImageRow.mk 1 "An image containing cat." "http://localhost:3000/files/1.png"]
    [TagRow.mk 1 "cat"] [ImageTagRow.mk 1 1] 2 2

/-- The store holding only the tag cat. -/
def exDbCatTag : Db := Db.mk [] [TagRow.mk 1 "cat"] [] 1 2

/-- The id of the first tag row carrying the given name, or zero when the
name is absent: the value get_tag_id returns once the name is present. -/
def tagIdOrZero (db : Db) (n : String) : Int :=
  match db.tags.find? (fun x => decide (x.name = n)) with
  | some tg => tg.id
  | none => 0

end ImageApi

namespace ImageApi

/-- A find? hit in a list survives appending further elements. -/
theorem find?_append_of_some {α : Type} {p : α → Bool} {l ext : List α} {a : α}
    (h : l.find? p = some a) : (l ++ ext).find? p = some a := by
  rw [List.find?_append, h]
  rfl

/-- Fault-free get_tag_id on a transaction whose store already holds a row
with the name takes the lookup path. -/
theorem get_tag_id_found (n : String) (t : Txn) (tg : TagRow)
    (hf : t.db.tags.find? (fun x => decide (x.name = n)) = some tg) :
    get_tag_id [] n t = Except.ok (tg.id, Txn.mk t.db (t.ops + 1)) := by
  unfold get_tag_id findTagByName
  rw [if_neg (List.not_mem_nil t.ops), hf]

/-- Fault-free get_tag_id on a transaction whose store has no row with the
name takes the insert path, appending one row with the next tag id. -/
theorem get_tag_id_fresh (n : String) (t : Txn)
    (hf : t.db.tags.find? (fun x => decide (x.name = n)) = none) :
    get_tag_id [] n t = Except.ok (t.db.nextTagId,
      Txn.mk (Db.mk t.db.images (t.db.tags ++ [TagRow.mk t.db.nextTagId n])
        t.db.image_tags t.db.nextImageId (t.db.nextTagId + 1)) (t.ops + 1 + 1)) := by
  unfold get_tag_id findTagByName insertTag
  rw [if_neg (List.not_mem_nil t.ops), hf]
  dsimp only
  rw [if_neg (List.not_mem_nil (t.ops + 1))]

/-- Fault-free get_tag_id succeeds, only ever appends tag rows, leaves the
image and junction relations untouched, and afterwards the first tag row
with the resolved name carries exactly the returned id. -/
theorem get_tag_id_nofault (n : String) (t : Txn) :
    ∃ i t2, get_tag_id [] n t = Except.ok (i, t2) ∧
      (∃ ext, t2.db.tags = t.db.tags ++ ext) ∧
      t2.db.images = t.db.images ∧
      t2.db.image_tags = t.db.image_tags ∧
      t2.db.nextImageId = t.db.nextImageId ∧
      t2.db.tags.find? (fun x => decide (x.name = n)) = some (TagRow.mk i n) := by
  cases hf : t.db.tags.find? (fun x => decide (x.name = n)) with
  | some tg =>
      have hname : tg.name = n := by
        have := List.find?_some hf
        simpa using this
      refine ⟨tg.id, Txn.mk t.db (t.ops + 1), get_tag_id_found n t tg hf,
        ⟨[], by simp⟩, rfl, rfl, rfl, ?_⟩
      show t.db.tags.find? (fun x => decide (x.name = n)) = some (TagRow.mk tg.id n)
      rw [hf]
      cases tg
      simp_all
  | none =>
      refine ⟨t.db.nextTagId,
        Txn.mk (Db.mk t.db.images (t.db.tags ++ [TagRow.mk t.db.nextTagId n])
          t.db.image_tags t.db.nextImageId (t.db.nextTagId + 1)) (t.ops + 1 + 1),
        get_tag_id_fresh n t hf, ⟨[TagRow.mk t.db.nextTagId n], rfl⟩, rfl, rfl, rfl, ?_⟩
      show (t.db.tags ++ [TagRow.mk t.db.nextTagId n]).find?
        (fun x => decide (x.name = n)) = some (TagRow.mk t.db.nextTagId n)
      rw [List.find?_append, hf]
      simp [List.find?]

/-- Fault-free resolve_tags succeeds, only appends tag rows, and returns for
each input name the id of the first tag row with that name in the final
transaction state; duplicate names therefore resolve to the same id. -/
theorem resolve_tags_nofault (names : List String) (t : Txn) :
    ∃ ids t2, resolve_tags [] names t = Except.ok (ids, t2) ∧
      (∃ ext, t2.db.tags = t.db.tags ++ ext) ∧
      t2.db.images = t.db.images ∧
      t2.db.image_tags = t.db.image_tags ∧
      t2.db.nextImageId = t.db.nextImageId ∧
      ids = names.map (tagIdOrZero t2.db) := by
  induction names generalizing t with
  | nil => exact ⟨[], t, rfl, ⟨[], by simp⟩, rfl, rfl, rfl, rfl⟩
  | cons n ns ih =>
      obtain ⟨i, t1, h1, ⟨ext1, he1⟩, him1, hit1, hni1, hf1⟩ := get_tag_id_nofault n t
      obtain ⟨ids, t2, h2, ⟨ext2, he2⟩, him2, hit2, hni2, hids⟩ := ih t1
      have hf2 : t2.db.tags.find? (fun x => decide (x.name = n)) = some (TagRow.mk i n) := by
        rw [he2]
        exact find?_append_of_some hf1
      refine ⟨i :: ids, t2, ?_, ⟨ext1 ++ ext2, by rw [he2, he1, List.append_assoc]⟩,
        him2.trans him1, hit2.trans hit1, hni2.trans hni1, ?_⟩
      · unfold resolve_tags
        rw [h1]
        dsimp only
        rw [h2]
      · rw [List.map_cons, ← hids]
        congr 1
        unfold tagIdOrZero
        rw [hf2]

/-- C5: resolving the same tag name twice in sequence returns the same
identifier both times, the second resolution changes nothing, the store ends
with exactly one more row for a freshly created name and the same rows for a
known one, and a pre-existing row is returned as-is without inserting. -/
theorem get_tag_id_idempotent (n : String) (t t1 t2 : Txn) (id1 id2 : Int)
    (h1 : get_tag_id [] n t = Except.ok (id1, t1))
    (h2 : get_tag_id [] n t1 = Except.ok (id2, t2)) :
    id2 = id1 ∧ t2.db = t1.db ∧
    t1.db.tags.countP (fun x => decide (x.name = n)) =
      max 1 (t.db.tags.countP (fun x => decide (x.name = n))) ∧
    ∀ tg, t.db.tags.find? (fun x => decide (x.name = n)) = some tg →
      id1 = tg.id ∧ t1.db = t.db := by
  cases hf : t.db.tags.find? (fun x => decide (x.name = n)) with
  | some tg =>
      rw [get_tag_id_found n t tg hf] at h1
      injection h1 with hp
      injection hp with hi ht
      have ht1db : t1.db = t.db := by rw [← ht]
      have hf1 : t1.db.tags.find? (fun x => decide (x.name = n)) = some tg := by
        rw [ht1db]; exact hf
      rw [get_tag_id_found n t1 tg hf1] at h2
      injection h2 with hp2
      injection hp2 with hi2 ht2
      refine ⟨by rw [← hi2, hi], by rw [← ht2], ?_, ?_⟩
      · rw [ht1db]
        have hp := List.find?_some hf
        have hpos : 0 < t.db.tags.countP (fun x => decide (x.name = n)) :=
          List.countP_pos.mpr ⟨tg, List.mem_of_find?_eq_some hf, hp⟩
        omega
      · intro tg2 htg2
        injection htg2 with he
        exact ⟨by rw [← hi, he], ht1db⟩
  | none =>
      rw [get_tag_id_fresh n t hf] at h1
      injection h1 with hp
      injection hp with hi ht
      have ht1db : t1.db = Db.mk t.db.images (t.db.tags ++ [TagRow.mk t.db.nextTagId n])
          t.db.image_tags t.db.nextImageId (t.db.nextTagId + 1) := by rw [← ht]
      have hf1 : t1.db.tags.find? (fun x => decide (x.name = n)) =
          some (TagRow.mk t.db.nextTagId n) := by
        rw [ht1db]
        show (t.db.tags ++ [TagRow.mk t.db.nextTagId n]).find?
          (fun x => decide (x.name = n)) = some (TagRow.mk t.db.nextTagId n)
        rw [List.find?_append, hf]
        simp [List.find?]
      rw [get_tag_id_found n t1 (TagRow.mk t.db.nextTagId n) hf1] at h2
      injection h2 with hp2
      injection hp2 with hi2 ht2
      refine ⟨by rw [← hi2, ← hi], by rw [← ht2], ?_, ?_⟩
      · have hzero : t.db.tags.countP (fun x => decide (x.name = n)) = 0 := by
          rw [List.countP_eq_zero]
          intro a ha
          have := List.find?_eq_none.mp hf a ha
          simpa using this
        rw [ht1db]
        show (t.db.tags ++ [TagRow.mk t.db.nextTagId n]).countP
          (fun x => decide (x.name = n)) = max 1 (t.db.tags.countP (fun x => decide (x.name = n)))
        rw [List.countP_append, hzero]
        simp
      · intro tg2 htg2
        exact absurd htg2 (by simp)

/-- C5 witness: resolving cat twice starting from the empty store creates one
row with id 1 and returns 1 both times. -/
theorem get_tag_id_idempotent_witness :
    (1 : Int) = 1 ∧ (Txn.mk exDbCatTag 4).db = (Txn.mk exDbCatTag 3).db ∧
    (Txn.mk exDbCatTag 3).db.tags.countP (fun x => decide (x.name = "cat")) =
      max 1 ((Txn.mk exDbEmpty 1).db.tags.countP (fun x => decide (x.name = "cat"))) ∧
    ∀ tg, (Txn.mk exDbEmpty 1).db.tags.find? (fun x => decide (x.name = "cat")) = some tg →
      (1 : Int) = tg.id ∧ (Txn.mk exDbCatTag 3).db = (Txn.mk exDbEmpty 1).db :=
  get_tag_id_idempotent "cat" (Txn.mk exDbEmpty 1) (Txn.mk exDbCatTag 3)
    (Txn.mk exDbCatTag 4) 1 1 rfl rfl

/-- C2 amended: duplicate occurrences of a tag name resolve to the same tag
id, but the resulting duplicate junction pairs are not deduplicated: the bulk
junction insert violates the composite primary key, and the whole operation
fails with the store rolled back. -/
theorem duplicate_tags_reach_junction_insert_and_fail (input : ImageInput)
    (tags : List String) (label : Option String) (db : Db)
    (hdup : ¬ tags.Nodup) :
    execute_insert_image [] input tags label db =
      (Except.error (serverErrorOfDbErr DbError.uniqueViolation), db) := by
  obtain ⟨ids, t2, hres, _, _, _, _, hids⟩ := resolve_tags_nofault tags (Txn.mk db 1)
  have hidsdup : ¬ ids.Nodup := by
    intro hnd
    rw [hids] at hnd
    exact hdup (hnd.of_map _)
  unfold execute_insert_image beginTxn
  rw [if_neg (List.not_mem_nil 0)]
  dsimp only
  rw [hres]
  dsimp only
  unfold insertImage
  rw [if_neg (List.not_mem_nil t2.ops)]
  dsimp only
  unfold insertManyImageTags
  rw [if_neg (List.not_mem_nil (t2.ops + 1)), if_neg]
  intro hand
  exact hidsdup (List.Nodup.of_map _ hand.1)

/-- C2 amended witness: the duplicate-rejection theorem applied to the list
dog, dog on the empty store. -/
theorem duplicate_tags_fail_witness :
    execute_insert_image [] (ImageInput.imageUrl "w") ["dog", "dog"] none exDbEmpty =
      (Except.error (serverErrorOfDbErr DbError.uniqueViolation), exDbEmpty) :=
  duplicate_tags_reach_junction_insert_and_fail (ImageInput.imageUrl "w") ["dog", "dog"]
    none exDbEmpty (by decide)

/-- Every run of execute_insert_image either fails leaving the original
store, or succeeds: the transaction wrapper never commits a partial state. -/
theorem execute_insert_image_shape (faults : Faults) (input : ImageInput)
    (tags : List String) (label : Option String) (db : Db) :
    (∃ e, execute_insert_image faults input tags label db = (Except.error e, db)) ∨
    (∃ i d2, execute_insert_image faults input tags label db = (Except.ok i, d2)) := by
  cases input with
  | imageUrl u =>
      unfold execute_insert_image commitTxn
      dsimp only
      repeat' split
      all_goals first
        | exact Or.inl ⟨_, rfl⟩
        | exact Or.inr ⟨_, _, rfl⟩
  | imageBase64 b =>
      unfold execute_insert_image commitTxn
      dsimp only
      repeat' split
      all_goals first
        | exact Or.inl ⟨_, rfl⟩
        | exact Or.inr ⟨_, _, rfl⟩

/-- C4: whenever any step of the insert operation fails, the surfaced result
is that error and the store state afterwards is the original one: no image
row, tag row or junction row from this call remains observable. -/
theorem insert_failure_leaves_store_unchanged (faults : Faults) (input : ImageInput)
    (tags : List String) (label : Option String) (db : Db) (e : ServerError)
    (h : (execute_insert_image faults input tags label db).1 = Except.error e) :
    (execute_insert_image faults input tags label db).2 = db := by
  rcases execute_insert_image_shape faults input tags label db with ⟨e2, heq⟩ | ⟨i, d2, heq⟩
  · rw [heq]
  · rw [heq] at h
    exact absurd h (by simp)

/-- C4 witness: with the transaction-open operation failing, the insert
surfaces a store error and the empty store is unchanged. -/
theorem insert_failure_leaves_store_unchanged_witness :
    (execute_insert_image [0] (ImageInput.imageUrl "u") ["cat"] none exDbEmpty).1 =
      Except.error (serverErrorOfDbErr DbError.storeFailure) ∧
    (execute_insert_image [0] (ImageInput.imageUrl "u") ["cat"] none exDbEmpty).2 =
      exDbEmpty :=
  ⟨rfl, insert_failure_leaves_store_unchanged [0] (ImageInput.imageUrl "u") ["cat"] none
    exDbEmpty (serverErrorOfDbErr DbError.storeFailure) rfl⟩

/-- A successful get_tag_id never touches the image relation, the junction
relation or the image counter, whatever the injected faults. -/
theorem get_tag_id_ok_preserves (faults : Faults) (n : String) (t : Txn) (i : Int) (t2 : Txn)
    (h : get_tag_id faults n t = Except.ok (i, t2)) :
    t2.db.images = t.db.images ∧ t2.db.image_tags = t.db.image_tags ∧
    t2.db.nextImageId = t.db.nextImageId := by
  unfold get_tag_id findTagByName insertTag at h
  by_cases h0 : t.ops ∈ faults
  · rw [if_pos h0] at h; cases h
  · rw [if_neg h0] at h
    dsimp only at h
    cases hf : t.db.tags.find? (fun x => decide (x.name = n)) with
    | some tg =>
        rw [hf] at h
        dsimp only at h
        injection h with hp
        injection hp with hi ht
        rw [← ht]
        exact ⟨rfl, rfl, rfl⟩
    | none =>
        rw [hf] at h
        dsimp only at h
        by_cases h1 : t.ops + 1 ∈ faults
        · rw [if_pos h1] at h; cases h
        · rw [if_neg h1] at h
          dsimp only at h
          injection h with hp
          injection hp with hi ht
          rw [← ht]
          exact ⟨rfl, rfl, rfl⟩

/-- A successful resolve_tags never touches the image relation, the junction
relation or the image counter, whatever the injected faults. -/
theorem resolve_tags_ok_preserves (faults : Faults) (names : List String) (t : Txn)
    (ids : List Int) (t2 : Txn)
    (h : resolve_tags faults names t = Except.ok (ids, t2)) :
    t2.db.images = t.db.images ∧ t2.db.image_tags = t.db.image_tags ∧
    t2.db.nextImageId = t.db.nextImageId := by
  induction names generalizing t ids t2 with
  | nil =>
      unfold resolve_tags at h
      injection h with hp
      injection hp with hi ht
      rw [← ht]
      exact ⟨rfl, rfl, rfl⟩
  | cons n ns ih =>
      unfold resolve_tags at h
      cases hg : get_tag_id faults n t with
      | error e => rw [hg] at h; cases h
      | ok p =>
          obtain ⟨i, t1⟩ := p
          rw [hg] at h
          dsimp only at h
          cases hx : resolve_tags faults ns t1 with
          | error e => rw [hx] at h; cases h
          | ok q =>
              obtain ⟨ids2, t2x⟩ := q
              rw [hx] at h
              dsimp only at h
              injection h with hp
              injection hp with hi ht
              obtain ⟨a1, a2, a3⟩ := get_tag_id_ok_preserves faults n t i t1 hg
              obtain ⟨b1, b2, b3⟩ := ih t1 ids2 t2x hx
              rw [← ht]
              exact ⟨b1.trans a1, b2.trans a2, b3.trans a3⟩

/-- The success case of the image-row insert: the store appends one row
carrying the next image id and bumps the counter. -/
theorem insertImage_ok (faults : Faults) (m : ImageActiveModel) (t : Txn)
    (row : ImageRow) (t2 : Txn)
    (h : insertImage faults m t = Except.ok (row, t2)) :
    row = ImageRow.mk t.db.nextImageId m.label m.url ∧
    t2.db.images = t.db.images ++ [row] ∧
    t2.db.tags = t.db.tags ∧
    t2.db.image_tags = t.db.image_tags ∧
    t2.db.nextImageId = t.db.nextImageId + 1 := by
  unfold insertImage at h
  by_cases h0 : t.ops ∈ faults
  · rw [if_pos h0] at h; cases h
  · rw [if_neg h0] at h
    dsimp only at h
    injection h with hp
    injection hp with hrow ht
    rw [← ht, ← hrow]
    exact ⟨rfl, rfl, rfl, rfl, rfl⟩

/-- The success case of the bulk junction insert: the batch rows are appended
and nothing else changes. -/
theorem insertManyImageTags_ok (faults : Faults) (rows : List ImageTagRow) (t : Txn)
    (t3 : Txn) (h : insertManyImageTags faults rows t = Except.ok t3) :
    t3.db.images = t.db.images ∧
    t3.db.tags = t.db.tags ∧
    t3.db.image_tags = t.db.image_tags ++ rows ∧
    t3.db.nextImageId = t.db.nextImageId := by
  unfold insertManyImageTags at h
  by_cases h0 : t.ops ∈ faults
  · rw [if_pos h0] at h; cases h
  · rw [if_neg h0] at h
    split at h
    · injection h with ht
      rw [← ht]
      exact ⟨rfl, rfl, rfl, rfl⟩
    · cases h

/-- The success case of the url patch: the image rows are mapped, patching
the url of the row with the given id, and nothing else changes. -/
theorem updateImageUrl_ok (faults : Faults) (id : Int) (url : String) (t : Txn)
    (t4 : Txn) (h : updateImageUrl faults id url t = Except.ok t4) :
    t4.db.images = t.db.images.map
      (fun img => if decide (img.id = id) then ImageRow.mk img.id img.label url else img) ∧
    t4.db.tags = t.db.tags ∧
    t4.db.image_tags = t.db.image_tags := by
  unfold updateImageUrl at h
  by_cases h0 : t.ops ∈ faults
  · rw [if_pos h0] at h; cases h
  · rw [if_neg h0] at h
    injection h with ht
    rw [← ht]
    exact ⟨rfl, rfl, rfl⟩

/-- The uploaded-file URL is never the placeholder: it is strictly longer. -/
theorem upload_ne_temporary (b : String) (id : Int) : upload b id ≠ "temporary" := by
  intro h
  have hlen := congrArg String.length h
  unfold upload FILES_ROUTE at hlen
  simp only [String.length_append] at hlen
  have e1 : ("http://localhost:3000" : String).length = 21 := rfl
  have e2 : ("/files" : String).length = 6 := rfl
  have e3 : ("/" : String).length = 1 := rfl
  have e4 : (".png" : String).length = 4 := rfl
  have e5 : ("temporary" : String).length = 9 := rfl
  rw [e1, e2, e3, e4, e5] at hlen
  omega

/-- C7: a successful insert from base64 data leaves an image row whose url is
the upload collaborator result, which embeds the assigned image id; the
subsequent read of that id returns exactly this url, never the placeholder. -/
theorem url_patched_after_create (faults : Faults) (b64 : String) (tags : List String)
    (label : Option String) (db : Db) (imgId : Int) (db2 : Db)
    (hwf : ∀ img ∈ db.images, img.id < db.nextImageId)
    (h : execute_insert_image faults (ImageInput.imageBase64 b64) tags label db =
      (Except.ok imgId, db2)) :
    ∃ r, query_image_by_id imgId db2 = Except.ok r ∧
      r.url = upload b64 imgId ∧
      upload b64 imgId =
        "http://localhost:3000" ++ FILES_ROUTE ++ "/" ++ toString imgId ++ ".png" ∧
      r.url ≠ "temporary" := by
  unfold execute_insert_image beginTxn at h
  by_cases h0 : 0 ∈ faults
  · rw [if_pos h0] at h; simp at h
  rw [if_neg h0] at h
  dsimp only at h
  cases hresolve : resolve_tags faults tags (Txn.mk db 1) with
  | error e => rw [hresolve] at h; simp at h
  | ok p =>
  obtain ⟨ids, t1⟩ := p
  rw [hresolve] at h
  dsimp only at h
  obtain ⟨him1, hit1, hni1⟩ := resolve_tags_ok_preserves faults tags (Txn.mk db 1) ids t1 hresolve
  cases hins : insertImage faults (create_image_model "temporary" tags label) t1 with
  | error e => rw [hins] at h; simp at h
  | ok q =>
  obtain ⟨row, t2⟩ := q
  rw [hins] at h
  dsimp only at h
  obtain ⟨hrow, ht2i, _, _, _⟩ :=
    insertImage_ok faults (create_image_model "temporary" tags label) t1 row t2 hins
  cases hjm : insertManyImageTags faults
      (ids.map (fun tag_id => ImageTagRow.mk row.id tag_id)) t2 with
  | error e => rw [hjm] at h; simp at h
  | ok t3 =>
  rw [hjm] at h
  dsimp only at h
  obtain ⟨ht3i, _, _, _⟩ := insertManyImageTags_ok faults
    (ids.map (fun tag_id => ImageTagRow.mk row.id tag_id)) t2 t3 hjm
  cases hup : updateImageUrl faults row.id (upload b64 row.id) t3 with
  | error e => rw [hup] at h; simp at h
  | ok t4 =>
  rw [hup] at h
  dsimp only at h
  obtain ⟨ht4i, _, _⟩ := updateImageUrl_ok faults row.id (upload b64 row.id) t3 t4 hup
  unfold commitTxn at h
  by_cases hc : t4.ops ∈ faults
  · rw [if_pos hc] at h; simp at h
  rw [if_neg hc] at h
  injection h with hok hdb
  injection hok with hid
  -- the assigned id is the image counter of the original store
  have hrid : row.id = db.nextImageId := by
    rw [hrow]
    exact hni1
  have himgid : imgId = db.nextImageId := by rw [← hid, hrid]
  -- the final image relation: the original rows untouched, plus the new row
  -- carrying the patched url
  have himg : db2.images = db.images ++
      [ImageRow.mk row.id row.label (upload b64 row.id)] := by
    rw [← hdb, ht4i, ht3i, ht2i, him1]
    show (db.images ++ [row]).map
      (fun img => if decide (img.id = row.id) then
        ImageRow.mk img.id img.label (upload b64 row.id) else img) = _
    rw [List.map_append]
    have hsame : db.images.map
        (fun img => if decide (img.id = row.id) then
          ImageRow.mk img.id img.label (upload b64 row.id) else img) = db.images := by
      have hcongr := List.map_congr_left (f := fun img : ImageRow =>
        if decide (img.id = row.id) then
          ImageRow.mk img.id img.label (upload b64 row.id) else img)
        (g := fun img : ImageRow => img) (l := db.images) ?_
      · rw [hcongr]
        exact List.map_id' db.images
      · intro a ha
        have hlt := hwf a ha
        have hne : ¬ (a.id = row.id) := by rw [hrid]; omega
        simp [hne]
    rw [hsame]
    have hupd : (fun img : ImageRow => if decide (img.id = row.id) then
        ImageRow.mk img.id img.label (upload b64 row.id) else img) row =
        ImageRow.mk row.id row.label (upload b64 row.id) := by simp
    show db.images ++ [(fun img : ImageRow => if decide (img.id = row.id) then
        ImageRow.mk img.id img.label (upload b64 row.id) else img) row] = _
    rw [hupd]
  have hfind : db2.images.find? (fun img => decide (img.id = imgId)) =
      some (ImageRow.mk row.id row.label (upload b64 row.id)) := by
    rw [himg, List.find?_append]
    have hnone : db.images.find? (fun img => decide (img.id = imgId)) = none := by
      rw [List.find?_eq_none]
      intro x hx
      have hlt := hwf x hx
      rw [himgid]
      simp only [decide_eq_true_eq]
      omega
    rw [hnone]
    have : decide (row.id = imgId) = true := by simp [hid]
    simp [List.find?, this]
  refine ⟨ImageResult.mk (upload b64 row.id)
    (imageTagNames db2 (ImageRow.mk row.id row.label (upload b64 row.id)).id)
    row.label row.id, ?_, ?_, ?_, ?_⟩
  · unfold query_image_by_id
    rw [hfind]
  · dsimp only
    rw [hid]
  · rfl
  · dsimp only
    rw [hid]
    exact upload_ne_temporary b64 imgId

/-- C7 witness: inserting base64 data tagged cat into the empty store commits
with id 1, and reading image 1 returns the uploaded-file url for id 1. -/
theorem url_patched_after_create_witness :
    ∃ r, query_image_by_id 1 exDbAfterInsert = Except.ok r ∧
      r.url = upload "x" 1 ∧
      upload "x" 1 =
        "http://localhost:3000" ++ FILES_ROUTE ++ "/" ++ toString (1 : Int) ++ ".png" ∧
      r.url ≠ "temporary" :=
  url_patched_after_create [] "x" ["cat"] none exDbEmpty 1 exDbAfterInsert
    (by simp [exDbEmpty]) rfl

/-- filterMap of a duplicate-free list is duplicate-free when the function is
injective, on members, at each produced value. -/
theorem nodup_filterMap_mem {α β : Type} (l : List α) (f : α → Option β)
    (hl : l.Nodup)
    (hinj : ∀ a ∈ l, ∀ b ∈ l, ∀ c, f a = some c → f b = some c → a = b) :
    (l.filterMap f).Nodup := by
  induction l with
  | nil => simp
  | cons a l ih =>
      rw [List.filterMap_cons]
      obtain ⟨hna, hnd⟩ := List.nodup_cons.mp hl
      have hrec := ih hnd (fun x hx y hy c hc1 hc2 =>
        hinj x (List.mem_cons_of_mem a hx) y (List.mem_cons_of_mem a hy) c hc1 hc2)
      cases hfa : f a with
      | none => exact hrec
      | some c =>
          rw [List.nodup_cons]
          refine ⟨?_, hrec⟩
          intro hmem
          obtain ⟨x, hx, hfx⟩ := List.mem_filterMap.mp hmem
          have hxa : x = a := hinj x (List.mem_cons_of_mem a hx) a (List.mem_cons_self a l)
            c hfx hfa
          rw [hxa] at hx
          exact hna hx

/-- Under unique tag ids and unique tag names, two tag ids resolving to the
same name are equal. -/
theorem tagNameOf_inj (db : Db) (hid : (db.tags.map (fun t => t.id)).Nodup)
    (hname : (db.tags.map (fun t => t.name)).Nodup)
    (x y : Int) (c : String) (hx : tagNameOf db x = some c) (hy : tagNameOf db y = some c) :
    x = y := by
  unfold tagNameOf at hx hy
  obtain ⟨t1, hf1, hn1⟩ := Option.map_eq_some'.mp hx
  obtain ⟨t2, hf2, hn2⟩ := Option.map_eq_some'.mp hy
  have h1mem := List.mem_of_find?_eq_some hf1
  have h2mem := List.mem_of_find?_eq_some hf2
  have hx1 : t1.id = x := by simpa using List.find?_some hf1
  have hy1 : t2.id = y := by simpa using List.find?_some hf2
  have ht12 : t1 = t2 := List.inj_on_of_nodup_map hname h1mem h2mem (by rw [hn1, hn2])
  rw [← hx1, ← hy1, ht12]

/-- Under the store invariants, the joined tag names of an image contain no
duplicates: each junction row of the image has a distinct tag id, and
distinct tag ids carry distinct names. -/
theorem imageTagNames_nodup (db : Db) (hj : db.image_tags.Nodup)
    (hid : (db.tags.map (fun t => t.id)).Nodup)
    (hname : (db.tags.map (fun t => t.name)).Nodup) (imgId : Int) :
    (imageTagNames db imgId).Nodup := by
  unfold imageTagNames
  have hrows : (db.image_tags.filter (fun it => decide (it.image_id = imgId))).Nodup :=
    hj.filter _
  apply nodup_filterMap_mem _ _ hrows
  intro a ha b hb c hca hcb
  have haid : a.image_id = imgId := by simpa using List.of_mem_filter ha
  have hbid : b.image_id = imgId := by simpa using List.of_mem_filter hb
  have htid : a.tag_id = b.tag_id := tagNameOf_inj db hid hname _ _ c hca hcb
  cases a; cases b
  simp_all

/-- Filtering the values produced by a filterMap counts the same rows as
filtering the sources directly. -/
theorem length_filter_filterMap {α β : Type} (l : List α) (f : α → Option β) (p : β → Bool) :
    ((l.filterMap f).filter p).length =
    (l.filter (fun a => ((f a).map p).getD false)).length := by
  induction l with
  | nil => rfl
  | cons a l ih =>
      rw [List.filterMap_cons, List.filter_cons]
      cases hfa : f a with
      | none => simpa [hfa] using ih
      | some b =>
          rw [List.filter_cons]
          cases hpb : p b <;> simp [hfa, hpb, ih]

/-- The HAVING count of the aggregation equals the number of the image's
distinct joined tag names that lie in the requested list. -/
theorem matchingRows_length (db : Db) (imgId : Int) (qtags : List String) :
    (matchingRows db imgId qtags).length =
    ((imageTagNames db imgId).filter (fun nm => decide (nm ∈ qtags))).length := by
  unfold matchingRows imageTagNames
  rw [length_filter_filterMap]
  congr 1
  apply List.filter_congr
  intro it hit
  cases hname : tagNameOf db it.tag_id <;> simp [hname]

/-- For duplicate-free lists, the count of names lying in the requested list
reaches the length of the requested list exactly when every requested name is
present. -/
theorem filter_mem_length_eq_iff (names qtags : List String)
    (hn : names.Nodup) (hq : qtags.Nodup) :
    ((names.filter (fun nm => decide (nm ∈ qtags))).length = qtags.length ↔
      ∀ q ∈ qtags, q ∈ names) := by
  have hsubnd : (names.filter (fun nm => decide (nm ∈ qtags))).Nodup := hn.filter _
  constructor
  · intro hlen q hqm
    have hsubset : (names.filter (fun nm => decide (nm ∈ qtags))).toFinset ⊆
        qtags.toFinset := by
      intro x hx
      rw [List.mem_toFinset] at hx ⊢
      simpa using List.of_mem_filter hx
    have hcard : qtags.toFinset.card ≤
        (names.filter (fun nm => decide (nm ∈ qtags))).toFinset.card := by
      rw [List.toFinset_card_of_nodup hsubnd, List.toFinset_card_of_nodup hq, hlen]
    have heq := Finset.eq_of_subset_of_card_le hsubset hcard
    have hq2 : q ∈ (names.filter (fun nm => decide (nm ∈ qtags))).toFinset := by
      rw [heq]
      exact List.mem_toFinset.mpr hqm
    exact List.mem_of_mem_filter (List.mem_toFinset.mp hq2)
  · intro hall
    have hset : (names.filter (fun nm => decide (nm ∈ qtags))).toFinset =
        qtags.toFinset := by
      ext x
      simp only [List.mem_toFinset, List.mem_filter, decide_eq_true_eq]
      exact ⟨fun hx => hx.2, fun hx => ⟨hall x hx, hx⟩⟩
    calc (names.filter (fun nm => decide (nm ∈ qtags))).length
        = (names.filter (fun nm => decide (nm ∈ qtags))).toFinset.card :=
          (List.toFinset_card_of_nodup hsubnd).symm
      _ = qtags.toFinset.card := by rw [hset]
      _ = qtags.length := List.toFinset_card_of_nodup hq

/-- C1 amended: the aggregation compares the matching-row count with the
total length of the requested list, so for a duplicate-free request it keeps
exactly the images whose tag names cover every requested name (superset
match), and a non-empty request is required. -/
theorem containsAll_superset_match_for_distinct_request (db : Db) (qtags : List String)
    (hwf : db.WF) (hnd : qtags.Nodup) (hlen : qtags.length < 2 ^ 31) :
    ∃ ids, get_image_ids_that_have_all_tags qtags db = Except.ok ids ∧
      ∀ i : Int, i ∈ ids ↔ ∃ img ∈ db.images, img.id = i ∧ qtags ≠ [] ∧
        ∀ q ∈ qtags, q ∈ imageTagNames db img.id := by
  obtain ⟨hwf1, hwf2, hwf3, hwf4, hwf5, hwf6⟩ := hwf
  refine ⟨(db.images.filter (fun img =>
      decide (0 < (matchingRows db img.id qtags).length) &&
      decide ((matchingRows db img.id qtags).length = qtags.length))).map
      (fun img => img.id), ?_, ?_⟩
  · unfold get_image_ids_that_have_all_tags
    rw [if_pos hlen]
  intro i
  constructor
  · intro hi
    obtain ⟨img, himg, hid⟩ := List.mem_map.mp hi
    obtain ⟨himem, hpred⟩ := List.mem_filter.mp himg
    rw [Bool.and_eq_true, decide_eq_true_eq, decide_eq_true_eq] at hpred
    obtain ⟨hpos, hcnt⟩ := hpred
    refine ⟨img, himem, hid, ?_, ?_⟩
    · intro hqe
      subst hqe
      rw [List.length_nil] at hcnt
      omega
    · have hnodup := imageTagNames_nodup db hwf6 hwf4 hwf5 img.id
      rw [matchingRows_length db img.id qtags] at hcnt
      exact (filter_mem_length_eq_iff (imageTagNames db img.id) qtags hnodup hnd).mp hcnt
  · rintro ⟨img, himem, hid, hne, hall⟩
    apply List.mem_map.mpr
    refine ⟨img, List.mem_filter.mpr ⟨himem, ?_⟩, hid⟩
    rw [Bool.and_eq_true, decide_eq_true_eq, decide_eq_true_eq]
    have hnodup := imageTagNames_nodup db hwf6 hwf4 hwf5 img.id
    have hcnt := (filter_mem_length_eq_iff (imageTagNames db img.id) qtags hnodup hnd).mpr hall
    rw [matchingRows_length db img.id qtags]
    refine ⟨?_, hcnt⟩
    rw [hcnt]
    cases qtags with
    | nil => exact absurd rfl hne
    | cons a l => simp

/-- C1 amended witness: with the duplicate-free request cat on the cat-dog
image store, the aggregation returns exactly the covering images. -/
theorem containsAll_superset_match_witness :
    ∃ ids, get_image_ids_that_have_all_tags ["cat"] exDbCatDog = Except.ok ids ∧
      ∀ i : Int, i ∈ ids ↔ ∃ img ∈ exDbCatDog.images, img.id = i ∧
        (["cat"] : List String) ≠ [] ∧
        ∀ q ∈ (["cat"] : List String), q ∈ imageTagNames exDbCatDog img.id :=
  containsAll_superset_match_for_distinct_request exDbCatDog ["cat"]
    (by decide) (by decide) (by norm_num)

/-- C3 amended: every result row of a ContainsSomeTags query carries exactly
the image's tag names that lie in the requested list, and that list of
matched names is never empty; unmatched tags of the image are absent. -/
theorem containsSome_results_carry_only_matched_tags (db : Db) (qtags : List String)
    (rs : List ImageResult)
    (h : query_images (TagFilter.containsSomeTags qtags) db = Except.ok rs) :
    ∀ r ∈ rs, r.tags = (imageTagNames db r.id).filter (fun nm => decide (nm ∈ qtags)) ∧
      r.tags ≠ [] := by
  intro r hr
  have hrs : rs = db.images.filterMap (fun img =>
      let matched := (imageTagNames db img.id).filter (fun nm => decide (nm ∈ qtags))
      if matched.isEmpty then none
      else some (ImageResult.mk img.url matched img.label img.id)) := by
    simp only [query_images] at h
    exact (Except.ok.inj h).symm
  rw [hrs] at hr
  obtain ⟨img, himg, hsome⟩ := List.mem_filterMap.mp hr
  dsimp only at hsome
  by_cases hemp : ((imageTagNames db img.id).filter (fun nm => decide (nm ∈ qtags))).isEmpty
  · rw [if_pos hemp] at hsome
    cases hsome
  · rw [if_neg hemp] at hsome
    injection hsome with hre
    rw [← hre]
    refine ⟨rfl, ?_⟩
    intro hnil
    apply hemp
    show ((imageTagNames db img.id).filter (fun nm => decide (nm ∈ qtags))).isEmpty = true
    have : (ImageResult.mk img.url
        ((imageTagNames db img.id).filter (fun nm => decide (nm ∈ qtags)))
        img.label img.id).tags = [] := hnil
    rw [show (ImageResult.mk img.url
        ((imageTagNames db img.id).filter (fun nm => decide (nm ∈ qtags)))
        img.label img.id).tags =
      (imageTagNames db img.id).filter (fun nm => decide (nm ∈ qtags)) from rfl] at this
    rw [this]
    rfl

/-- C3 amended witness: the theorem applied to the cat-dog store queried for
cat, whose single result carries only the matched name. -/
theorem containsSome_matched_tags_witness :
    (ImageResult.mk "u" ["cat"] "lbl" 1).tags =
      (imageTagNames exDbCatDog (ImageResult.mk "u" ["cat"] "lbl" 1).id).filter
        (fun nm => decide (nm ∈ (["cat"] : List String))) ∧
    (ImageResult.mk "u" ["cat"] "lbl" 1).tags ≠ [] :=
  containsSome_results_carry_only_matched_tags exDbCatDog ["cat"]
    [ImageResult.mk "u" ["cat"] "lbl" 1] rfl
    (ImageResult.mk "u" ["cat"] "lbl" 1) (List.mem_singleton.mpr rfl)

/-- C9: with unique image ids, the unfiltered query returns one result per
image row, in particular every image exactly once, each carrying its complete
joined tag-name list (empty for an untagged image). -/
theorem none_filter_completeness (db : Db)
    (h : (db.images.map (fun i => i.id)).Nodup) :
    ∃ rs, query_images TagFilter.none db = Except.ok rs ∧
      rs = db.images.map (imageResultOf db) ∧
      (rs.map (fun r => r.id)).Nodup ∧
      ∀ img ∈ db.images, imageResultOf db img ∈ rs := by
  refine ⟨db.images.map (imageResultOf db), rfl, rfl, ?_, ?_⟩
  · rw [List.map_map]
    have e : ((fun r : ImageResult => r.id) ∘ imageResultOf db) =
        (fun i : ImageRow => i.id) := rfl
    rw [e]
    exact h
  · intro img himg
    exact List.mem_map_of_mem _ himg

/-- C9 witness: the theorem applied to a store with a tagged and an untagged
image. -/
theorem none_filter_completeness_witness :
    ∃ rs, query_images TagFilter.none exDbTwoImages = Except.ok rs ∧
      rs = exDbTwoImages.images.map (imageResultOf exDbTwoImages) ∧
      (rs.map (fun r => r.id)).Nodup ∧
      ∀ img ∈ exDbTwoImages.images, imageResultOf exDbTwoImages img ∈ rs :=
  none_filter_completeness exDbTwoImages (by decide)

/-- C1 counterexample: image 1 of exDbCatOnly carries the tag cat, the only
distinct name in the request cat, cat; the claim says the image is returned,
but the aggregation compares the count of matching rows (one) with the total
length of the requested list (two), so the image is dropped. -/
theorem containsAll_duplicate_request_drops_matching_image :
    imageTagNames exDbCatOnly 1 = ["cat"] ∧
    get_image_ids_that_have_all_tags ["cat", "cat"] exDbCatOnly = Except.ok [] ∧
    query_images (TagFilter.containsAllTags ["cat", "cat"]) exDbCatOnly = Except.ok [] := by
  exact ⟨rfl, rfl, rfl⟩

/-- C2 counterexample: inserting with the duplicated tag list cat, cat makes
both resolutions return the same tag id, the duplicate junction pair is not
deduplicated, the bulk insert violates the composite primary key, and the
whole operation fails with the store unchanged, refuting the claim that the
operation succeeds. -/
theorem duplicate_tag_insert_fails :
    execute_insert_image [] (ImageInput.imageUrl "u") ["cat", "cat"] none exDbEmpty =
      (Except.error (serverErrorOfDbErr DbError.uniqueViolation), exDbEmpty) := by
  exact rfl

/-- C3 counterexample: image 1 of exDbCatDog has the tags cat and dog, but the
ContainsSomeTags query for cat returns it carrying only the matched name cat,
not its complete tag set. -/
theorem containsSome_result_misses_unmatched_tag :
    imageTagNames exDbCatDog 1 = ["cat", "dog"] ∧
    query_images (TagFilter.containsSomeTags ["cat"]) exDbCatDog =
      Except.ok [ImageResult.mk "u" ["cat"] "lbl" 1] := by
  exact ⟨rfl, rfl⟩

/-- C6: with no caller-supplied label the stored label is synthesized from the
tag names: the empty list gives the fixed untagged label, a non-empty list
gives the tags comma-separated in input order inside the fixed sentence
template, and a supplied label is used unchanged. -/
theorem label_synthesis (url : String) (tags : List String) (lbl : String)
    (h : tags ≠ []) :
    (create_image_model url tags (some lbl)).label = lbl ∧
    (create_image_model url tags none).label = generate_label tags ∧
    generate_label [] = "An untagged image" ∧
    generate_label tags = "An image containing " ++ String.intercalate ", " tags ++ "." ∧
    generate_label ["cat", "dog"] = "An image containing cat, dog." := by
  refine ⟨rfl, rfl, rfl, ?_, by decide⟩
  unfold generate_label
  rw [if_neg]
  simp [h]

/-- C6 witness: the label synthesis theorem at url u, tags cat, dog and
supplied label x. -/
theorem label_synthesis_witness :
    (create_image_model "u" ["cat", "dog"] (some "x")).label = "x" ∧
    (create_image_model "u" ["cat", "dog"] none).label = generate_label ["cat", "dog"] ∧
    generate_label [] = "An untagged image" ∧
    generate_label ["cat", "dog"] =
      "An image containing " ++ String.intercalate ", " ["cat", "dog"] ++ "." ∧
    generate_label ["cat", "dog"] = "An image containing cat, dog." :=
  label_synthesis "u" ["cat", "dog"] "x" (by decide)

/-- C8: looking up an image id either reports the not-found condition, a 404
distinct from the 500 carried by every store error, or returns the image's
url, label, id and associated tag names. -/
theorem query_by_id_not_found_vs_found (id : Int) (db : Db) :
    (∀ e : DbError, (serverErrorOfDbErr e).code = 500) ∧
    ((db.images.find? (fun img => decide (img.id = id)) = none ∧
        query_image_by_id id db =
          Except.error (ServerError.mk 404 ("No image found with id " ++ toString id))) ∨
      (∃ img, db.images.find? (fun img2 => decide (img2.id = id)) = some img ∧
        query_image_by_id id db =
          Except.ok (ImageResult.mk img.url (imageTagNames db img.id) img.label img.id))) := by
  constructor
  · intro e; cases e <;> rfl
  · cases hf : db.images.find? (fun img => decide (img.id = id)) with
    | none => exact Or.inl ⟨rfl, by unfold query_image_by_id; rw [hf]⟩
    | some img => exact Or.inr ⟨img, rfl, by unfold query_image_by_id; rw [hf]⟩

/-- C10: an empty tag-name list matches nothing for both predicate variants:
the ContainsSomeTags filter can hold for no joined row, and the ContainsAllTags
aggregation produces no group, so both queries return no images. -/
theorem empty_tag_list_matches_nothing (db : Db) :
    query_images (TagFilter.containsSomeTags []) db = Except.ok [] ∧
    query_images (TagFilter.containsAllTags []) db = Except.ok [] ∧
    get_image_ids_that_have_all_tags [] db = Except.ok [] := by
  have hids : get_image_ids_that_have_all_tags [] db = Except.ok [] := by
    unfold get_image_ids_that_have_all_tags
    rw [if_pos (by norm_num)]
    have hfil : db.images.filter (fun img =>
        decide (0 < (matchingRows db img.id []).length) &&
        decide ((matchingRows db img.id []).length = ([] : List String).length)) = [] := by
      rw [List.filter_eq_nil_iff]
      intro img _
      have hm : matchingRows db img.id [] = [] := by
        unfold matchingRows
        rw [List.filter_eq_nil_iff]
        intro it _
        cases tagNameOf db it.tag_id <;> simp
      simp [hm]
    rw [hfil]
    rfl
  have hsome : query_images (TagFilter.containsSomeTags []) db = Except.ok [] := by
    simp only [query_images]
    congr 1
    rw [List.filterMap_eq_nil_iff]
    intro img _
    simp
  have hall : query_images (TagFilter.containsAllTags []) db = Except.ok [] := by
    simp only [query_images]
    rw [hids]
    have hfl : db.images.filter (fun img => decide (img.id ∈ ([] : List Int))) = [] := by
      rw [List.filter_eq_nil_iff]; intro img _; simp
    show Except.ok (List.map (imageResultOf db)
      (db.images.filter (fun img => decide (img.id ∈ ([] : List Int))))) = Except.ok []
    rw [hfl]
    rfl
  exact ⟨hsome, hall, hids⟩

end ImageApi
